import Mathlib

/-!
Verification of the "ttp" timed-trace-point character-device module
(drivers file with `ttp_emit` / `ttp_read` / `ttp_write` / `ttp_init`).

The C code is shallowly embedded: the module-global variables
(`ttp_enabled`, `ttp_clock`, `ttp_cpus`, `storage`, `suppress_error`,
module parameter `max_events`) become the fields of `TtpState`; each file
operation becomes a pure function from a state (plus its nondeterministic
environment inputs: the current time, the current CPU id, success of the
user-space copies) to a new state and a result.  Machine integers are
modelled as `Nat` with an explicit `% 2 ^ 64` where the C code narrows to
`uint64_t` and `% 256` where it wraps an `unsigned char`.
-/

namespace Ttp

/-- Clock id constant, as in `<uapi/linux/time.h>`. -/
def CLOCK_REALTIME : Int := 0

/-- Clock id constant, as in `<uapi/linux/time.h>`. -/
def CLOCK_MONOTONIC : Int := 1

/-- Nanoseconds per second, as used on the `ev.abstime` computation line. -/
def NSEC_PER_SEC : Int := 1000000000

/-- Maximum accepted command length (`#define MAX_INPUT_SIZE 31`). -/
def MAX_INPUT_SIZE : Nat := 31

/-- `struct event`: a recorded trace point.  `id` is an `unsigned int`
value and `abstime` a `uint64_t` value (both kept as `Nat`). -/
structure Event where
  id : Nat
  abstime : Nat
deriving DecidableEq

/-- `struct ttp_storage`: one per-CPU shard.  `events` models the
`kvzalloc`-ed slot array (its length is the allocated capacity,
`max_events`); `eventcount` is the `uint64_t` fill count. -/
structure TtpStorage where
  eventcount : Nat
  events : List Event
deriving DecidableEq

/-- The default/zero `Event`, used as the out-of-range fallback of
list lookups (a C out-of-bounds access has no defined value; all theorems
below stay within bounds except where a violation is being exhibited). -/
def zeroEvent : Event := ⟨0, 0⟩

/-- Zero-filled `ttp_storage`, the fallback value of shard lookups. -/
def emptyStorage : TtpStorage := ⟨0, []⟩

/-- The module-global mutable state.  `storage = none` models the NULL
`storage` pointer before/after a failed initialization. -/
structure TtpState where
  max_events : Nat
  ttp_enabled : Bool
  ttp_cpus : Nat
  storage : Option (List TtpStorage)
  ttp_clock : Int
  suppress_error : Nat
deriving DecidableEq

/-- Which diagnostic (if any) one `ttp_emit` call prints. -/
inductive EmitLog where
  | noLog
  | unknownClock
  | badCpu
  | maxEventsReached
deriving DecidableEq, BEq

/-- `ev.abstime = tp.tv_sec * NSEC_PER_SEC + tp.tv_nsec`, narrowed to the
`uint64_t` field. -/
def mkAbstime (tp_sec : Int) (tp_nsec : Nat) : Nat :=
  ((tp_sec * NSEC_PER_SEC + (tp_nsec : Int)) % (2 ^ 64 : Int)).toNat

/-- `ttp_emit`: the hot-path append.  The environment supplies the current
CPU id (`smp_processor_id()`) and the time read by the selected clock
(`tp_sec`, `tp_nsec`).  Returns the new global state and the diagnostic
printed, if any.  Mirrors the source line by line: enabled gate, clock
switch, CPU bounds check, capacity check with the wrapping
`unsigned char suppress_error` counter, then the append
`stor->events[stor->eventcount++] = ev`. -/
def ttp_emit (s : TtpState) (cpu_id : Nat) (id : Nat) (tp_sec : Int)
    (tp_nsec : Nat) : TtpState × EmitLog :=
  if s.ttp_enabled = false then (s, .noLog)
  else if s.ttp_clock ≠ CLOCK_REALTIME ∧ s.ttp_clock ≠ CLOCK_MONOTONIC then
    (s, .unknownClock)
  else
    let ev : Event := ⟨id, mkAbstime tp_sec tp_nsec⟩
    if s.ttp_cpus ≤ cpu_id then (s, .badCpu)
    else
      let stors := s.storage.getD []
      let stor := stors.getD cpu_id emptyStorage
      if s.max_events ≤ stor.eventcount then
        ({ s with suppress_error := (s.suppress_error + 1) % 256 },
         if s.suppress_error = 0 then .maxEventsReached else .noLog)
      else
        ({ s with storage := some (stors.set cpu_id
             ⟨stor.eventcount + 1, stor.events.set stor.eventcount ev⟩) },
         .noLog)

/-- One call to `ttp_emit` as seen by the instrumented caller: the id it
passes plus the time the clock read returns during that call. -/
structure EmitCall where
  id : Nat
  tp_sec : Int
  tp_nsec : Nat
deriving DecidableEq

/-- The `Event` a given call records (id plus narrowed timestamp). -/
def evOf (c : EmitCall) : Event := ⟨c.id, mkAbstime c.tp_sec c.tp_nsec⟩

/-- Run a sequence of `ttp_emit` calls on one CPU, collecting the
diagnostics printed. -/
def emitMany (cpu : Nat) : TtpState → List EmitCall → TtpState × List EmitLog
  | s, [] => (s, [])
  | s, c :: rest =>
    let r := ttp_emit s cpu c.id c.tp_sec c.tp_nsec
    let r2 := emitMany cpu r.1 rest
    (r2.1, r.2 :: r2.2)

/-- Overwrite consecutive slots of `evs` starting at index `i` with the
given events (the cumulative effect of in-capacity appends). -/
def writeFrom (evs : List Event) (i : Nat) : List Event → List Event
  | [] => evs
  | e :: rest => writeFrom (evs.set i e) (i + 1) rest

/-- Kernel `isspace` (ctype class `_S`): space, \t, \n, \v, \f, \r. -/
def isspace (c : Char) : Bool :=
  c = ' ' || c = Char.ofNat 9 || c = Char.ofNat 10 || c = Char.ofNat 11
    || c = Char.ofNat 12 || c = Char.ofNat 13

/-- Effect of the `strim(input)` call on the `input` buffer.  `strim`
erases trailing whitespace in place and returns a pointer past the leading
whitespace — but the source discards that return value, so only the
trailing trim is visible to the subsequent comparisons. -/
def strimTrailing (l : List Char) : List Char :=
  (l.reverse.dropWhile isspace).reverse

/-- `strncmp(a, b, n) == 0` for NUL-terminated strings holding no interior
NUL: the comparison stops at the first difference, at a terminator, or
after `n` bytes, which is equivalent to the first `n` characters (or all,
if shorter) being equal. -/
def strncmpEq (a b : List Char) (n : Nat) : Bool :=
  decide (a.take n = b.take n)

/-- Result of one `ttp_write` call (`-ENOMEM`, `-EFAULT`, `-EBUSY`,
`-EINVAL`, or the consumed byte count). -/
inductive WriteRes where
  | ok (n : Nat)
  | enomem
  | efault
  | ebusy
  | einval
deriving DecidableEq

/-- The reset loop `for (i = 0; i < ttp_cpus; i++)
storage[i].eventcount = 0`: zeroes the count of the first `n` shards
(`n = ttp_cpus`, which by the initialization invariant is the length of
the table). -/
def resetLoop : List TtpStorage → Nat → List TtpStorage
  | stors, 0 => stors
  | [], _ + 1 => []
  | stor :: rest, n + 1 => ⟨0, stor.events⟩ :: resetLoop rest n

/-- `ttp_write`: the control-plane command endpoint.  `data` is the user
buffer content (assumed free of interior NUL bytes), `copyOk` tells
whether `copy_from_user` succeeds.  Mirrors the source: NULL-storage
check, truncation of `len` to `MAX_INPUT_SIZE`, copy, NUL termination,
`strim` (trailing trim only — the returned pointer is discarded), then
the `strncmp(input, <command>, len)` cascade under the lock. -/
def ttp_write (s : TtpState) (data : List Char) (copyOk : Bool) :
    TtpState × WriteRes :=
  match s.storage with
  | none => (s, .enomem)
  | some stors =>
    let len := min data.length MAX_INPUT_SIZE
    if copyOk = false then (s, .efault)
    else
      let input := strimTrailing (data.take len)
      if strncmpEq input "start".toList len then
        if s.ttp_enabled then (s, .ebusy)
        else ({ s with ttp_enabled := true }, .ok len)
      else if strncmpEq input "stop".toList len then
        ({ s with ttp_enabled := false }, .ok len)
      else if strncmpEq input "reset".toList len then
        if s.ttp_enabled then (s, .einval)
        else ({ s with storage := some (resetLoop stors s.ttp_cpus) }, .ok len)
      else if strncmpEq input "0".toList len then
        if s.ttp_enabled then (s, .ebusy)
        else ({ s with ttp_clock := CLOCK_REALTIME }, .ok len)
      else if strncmpEq input "1".toList len then
        if s.ttp_enabled then (s, .ebusy)
        else ({ s with ttp_clock := CLOCK_MONOTONIC }, .ok len)
      else (s, .einval)

/-- The token-matching rule the source actually implements for a command:
compare the trailing-trimmed truncated input against the command under
`strncmp` bounded by the UNtrimmed truncated length. -/
def matchCmd (data : List Char) (cmd : List Char) : Bool :=
  strncmpEq (strimTrailing (data.take (min data.length MAX_INPUT_SIZE))) cmd
    (min data.length MAX_INPUT_SIZE)

/-- `struct fpos`: the per-session drain cursor, `kzalloc`-ed to (0,0) at
open. -/
structure Fpos where
  cpu : Nat
  event : Nat
deriving DecidableEq

/-- Result of one `ttp_read` call: an error, end-of-stream (return 0), or
one formatted line copied to the caller (the C return value is then the
length of that line). -/
inductive ReadRes where
  | enomem
  | ebusy
  | enospc
  | eof
  | line (out : String)
  | einval
deriving DecidableEq

/-- The `snprintf(tmp, sizeof(tmp), "%u,%u,%llu\n", ev->id, fpos->cpu,
ev->abstime)` format.  All three values are in range of their conversion
(`id` is an `unsigned int` value, `cpu` counts CPUs, `abstime` is a
`uint64_t` value), and the result is at most 43 bytes, so the 128-byte
`tmp` buffer never truncates. -/
def formatLine (id cpu abstime : Nat) : String :=
  Nat.repr id ++ "," ++ Nat.repr cpu ++ "," ++ Nat.repr abstime ++ "\n"

/-- The `again:` retry loop of `ttp_read`.  The source tests
`fpos->cpu == ttp_cpus`; a cursor starts at (0,0) and only ever advances
by single increments past this equality test, so `cpu ≤ ttp_cpus` holds
on every reachable cursor and the `≤` guard used here agrees with the
source test (for `cpu > ttp_cpus` the source would walk off the end of
the shard table).  `copyOk` tells whether `copy_to_user` succeeds; note
the cursor advances even when it fails. -/
def ttp_read_loop (stors : List TtpStorage) (ncpus : Nat) (copyOk : Bool)
    (fpos : Fpos) : ReadRes × Fpos :=
  if ncpus ≤ fpos.cpu then (.eof, fpos)
  else if fpos.event = (stors.getD fpos.cpu emptyStorage).eventcount then
    ttp_read_loop stors ncpus copyOk ⟨fpos.cpu + 1, 0⟩
  else
    ((if copyOk then
        .line (formatLine
          ((stors.getD fpos.cpu emptyStorage).events.getD fpos.event
            zeroEvent).id
          fpos.cpu
          ((stors.getD fpos.cpu emptyStorage).events.getD fpos.event
            zeroEvent).abstime)
      else .einval),
     ⟨fpos.cpu, fpos.event + 1⟩)
termination_by ncpus - fpos.cpu
decreasing_by simp_wf; omega

/-- `ttp_read`: NULL-storage check, busy check while armed, minimum
buffer-size check against `sizeof(tmp) = 128`, then the retry loop. -/
def ttp_read (s : TtpState) (fpos : Fpos) (size : Nat) (copyOk : Bool) :
    ReadRes × Fpos :=
  match s.storage with
  | none => (.enomem, fpos)
  | some stors =>
    if s.ttp_enabled then (.ebusy, fpos)
    else if size < 128 then (.enospc, fpos)
    else ttp_read_loop stors s.ttp_cpus copyOk fpos

/-- The lines shard `cpu` contributes to a drain: its first `eventcount`
slots, in slot order. -/
def shardLines (cpu : Nat) (stor : TtpStorage) : List String :=
  (stor.events.take stor.eventcount).map
    (fun ev => formatLine ev.id cpu ev.abstime)

/-- All lines of a full drain: shards in index order, slots in slot
order, empty shards contributing nothing. -/
def drainAll (stors : List TtpStorage) (ncpus : Nat) : List String :=
  (List.range ncpus).flatMap
    (fun i => shardLines i (stors.getD i emptyStorage))

/-- The lines still to be delivered to a session whose cursor is
`fpos`. -/
def drainSuffix (stors : List TtpStorage) (ncpus : Nat) (fpos : Fpos) :
    List String :=
  if ncpus ≤ fpos.cpu then []
  else (shardLines fpos.cpu (stors.getD fpos.cpu emptyStorage)).drop fpos.event
       ++ drainSuffix stors ncpus ⟨fpos.cpu + 1, 0⟩
termination_by ncpus - fpos.cpu
decreasing_by simp_wf; omega

/-- The results of `n` successive `ttp_read` calls of one session. -/
def readTrace (s : TtpState) (size : Nat) (copyOk : Bool) :
    Fpos → Nat → List ReadRes
  | _, 0 => []
  | fpos, n + 1 =>
    let r := ttp_read s fpos size copyOk
    r.1 :: readTrace s size copyOk r.2 n

/-- A cursor is valid for the current storage when it has not walked past
the shard table and, within a shard, not past that shard count.  This
holds for a fresh cursor and is preserved by reads; a `reset` between
reads can break the second conjunct (see C9). -/
def ValidPos (stors : List TtpStorage) (ncpus : Nat) (fpos : Fpos) : Prop :=
  fpos.cpu ≤ ncpus ∧
  (fpos.cpu < ncpus →
    fpos.event ≤ (stors.getD fpos.cpu emptyStorage).eventcount)

/-- Storage well-formedness established by initialization: no shard count
exceeds its allocated slot array. -/
def WfStorage (stors : List TtpStorage) : Prop :=
  ∀ stor ∈ stors, stor.eventcount ≤ stor.events.length

/-- Bookkeeping result of `ttp_init`: the returned status, whether the
shard table allocation is still held at return, and how many per-shard
event buffers are still held at return.  On a success return the held
resources are live by design; on an error return anything still held is
leaked. -/
structure InitResult where
  ret : Int
  tableHeld : Bool
  shardsHeld : Nat
deriving DecidableEq

/-- `ttp_init`: allocates the shard table (`kzalloc`), then one event
buffer per CPU (`kvzalloc`) in index order, then registers the misc
device.  The environment oracles `tableOk`, `shardOk i` and `regErr` say
which allocations succeed and what `misc_register` returns.  On a failed
shard allocation the source returns `-ENOMEM` immediately (the
"fixme - misses unrolling" line), freeing neither the already-allocated
buffers nor the table; likewise on registration failure. -/
def ttp_init (ncpus : Nat) (tableOk : Bool) (shardOk : Nat → Bool)
    (regErr : Int) : InitResult :=
  if tableOk = false then ⟨-12, false, 0⟩
  else
    match (List.range ncpus).find? (fun i => !(shardOk i)) with
    | some i => ⟨-12, true, i⟩
    | none => if regErr ≠ 0 then ⟨regErr, true, ncpus⟩ else ⟨0, true, ncpus⟩

theorem list_set_getD_self {α : Type} (l : List α) (i : Nat) (d : α) :
    l.set i (l.getD i d) = l := by
  induction l generalizing i with
  | nil => simp
  | cons a t ih =>
    cases i with
    | zero => simp [List.getD]
    | succ n => simpa [List.getD] using ih n

theorem list_getD_set_self {α : Type} (l : List α) (i : Nat) (a d : α)
    (h : i < l.length) : (l.set i a).getD i d = a := by
  induction l generalizing i with
  | nil => simp at h
  | cons b t ih =>
    cases i with
    | zero => simp [List.getD]
    | succ n => simpa [List.getD] using ih n (by simpa using h)

theorem writeFrom_length (news : List Event) :
    ∀ (evs : List Event) (i : Nat), (writeFrom evs i news).length = evs.length := by
  induction news with
  | nil => intro evs i; rfl
  | cons e rest ih =>
    intro evs i
    simpa [writeFrom] using ih (evs.set i e) (i + 1)

theorem writeFrom_getD_lt (news : List Event) :
    ∀ (evs : List Event) (i j : Nat), j < i →
      (writeFrom evs i news).getD j zeroEvent = evs.getD j zeroEvent := by
  induction news with
  | nil => intro evs i j _; rfl
  | cons e rest ih =>
    intro evs i j hj
    have := ih (evs.set i e) (i + 1) j (by omega)
    simp only [writeFrom] at *
    rw [this, List.getD_eq_getElem?_getD, List.getD_eq_getElem?_getD,
      List.getElem?_set_ne (by omega)]

theorem writeFrom_getD (news : List Event) :
    ∀ (evs : List Event) (i j : Nat), j < news.length →
      i + news.length ≤ evs.length →
      (writeFrom evs i news).getD (i + j) zeroEvent = news.getD j zeroEvent := by
  induction news with
  | nil => intro evs i j hj _; simp at hj
  | cons e rest ih =>
    intro evs i j hj hlen
    cases j with
    | zero =>
      simp only [writeFrom, Nat.add_zero]
      rw [writeFrom_getD_lt rest (evs.set i e) (i + 1) i (by omega)]
      simp only [List.getD]
      exact list_getD_set_self evs i e zeroEvent (by simp at hlen; omega)
    | succ n =>
      have : i + (n + 1) = (i + 1) + n := by omega
      rw [this]
      simp only [writeFrom, List.getD_cons_succ]
      exact ih (evs.set i e) (i + 1) n (by simpa using hj)
        (by simp at hlen ⊢; omega)

/-- Fully-reduced form of one armed, in-capacity `ttp_emit` call. -/
theorem ttp_emit_append (maxev ncpus : Nat) (clk : Int) (sup cpu id : Nat)
    (sec : Int) (nsec : Nat) (stors : List TtpStorage)
    (hclk : clk = CLOCK_REALTIME ∨ clk = CLOCK_MONOTONIC)
    (hcpu : cpu < ncpus)
    (hcap : (stors.getD cpu emptyStorage).eventcount < maxev) :
    ttp_emit ⟨maxev, true, ncpus, some stors, clk, sup⟩ cpu id sec nsec =
      (⟨maxev, true, ncpus, some (stors.set cpu
          ⟨(stors.getD cpu emptyStorage).eventcount + 1,
           (stors.getD cpu emptyStorage).events.set
             (stors.getD cpu emptyStorage).eventcount
             ⟨id, mkAbstime sec nsec⟩⟩),
        clk, sup⟩, .noLog) := by
  have h2 : ¬ (clk ≠ CLOCK_REALTIME ∧ clk ≠ CLOCK_MONOTONIC) := by
    rcases hclk with h | h <;> simp [h]
  simp only [ttp_emit, Option.getD_some]
  rw [if_neg (by simp), if_neg h2, if_neg (Nat.not_le.mpr hcpu),
    if_neg (Nat.not_le.mpr hcap)]

/-- Fully-reduced form of one armed `ttp_emit` call on a full shard. -/
theorem ttp_emit_drop (maxev ncpus : Nat) (clk : Int) (sup cpu id : Nat)
    (sec : Int) (nsec : Nat) (stors : List TtpStorage)
    (hclk : clk = CLOCK_REALTIME ∨ clk = CLOCK_MONOTONIC)
    (hcpu : cpu < ncpus)
    (hful : maxev ≤ (stors.getD cpu emptyStorage).eventcount) :
    ttp_emit ⟨maxev, true, ncpus, some stors, clk, sup⟩ cpu id sec nsec =
      (⟨maxev, true, ncpus, some stors, clk, (sup + 1) % 256⟩,
       if sup = 0 then .maxEventsReached else .noLog) := by
  have h2 : ¬ (clk ≠ CLOCK_REALTIME ∧ clk ≠ CLOCK_MONOTONIC) := by
    rcases hclk with h | h <;> simp [h]
  simp only [ttp_emit, Option.getD_some]
  rw [if_neg (by simp), if_neg h2, if_neg (Nat.not_le.mpr hcpu), if_pos hful]

/-- Cumulative effect of a sequence of armed, in-capacity `ttp_emit`
calls on one CPU: the shard count grows by the number of calls, the new
records land in the consecutive slots, and no diagnostic is printed. -/
theorem emitMany_append (calls : List EmitCall) :
    ∀ (maxev ncpus : Nat) (clk : Int) (sup cpu : Nat)
      (stors : List TtpStorage),
      (clk = CLOCK_REALTIME ∨ clk = CLOCK_MONOTONIC) → cpu < ncpus →
      (stors.getD cpu emptyStorage).eventcount + calls.length ≤ maxev →
      maxev ≤ (stors.getD cpu emptyStorage).events.length →
      emitMany cpu ⟨maxev, true, ncpus, some stors, clk, sup⟩ calls =
        (⟨maxev, true, ncpus, some (stors.set cpu
            ⟨(stors.getD cpu emptyStorage).eventcount + calls.length,
             writeFrom (stors.getD cpu emptyStorage).events
               (stors.getD cpu emptyStorage).eventcount (calls.map evOf)⟩),
          clk, sup⟩,
         List.replicate calls.length .noLog) := by
  induction calls with
  | nil =>
    intro maxev ncpus clk sup cpu stors _ _ _ _
    simp only [emitMany, List.length_nil, List.map_nil, List.replicate,
      Nat.add_zero]
    rw [show (⟨(stors.getD cpu emptyStorage).eventcount,
          writeFrom (stors.getD cpu emptyStorage).events
            (stors.getD cpu emptyStorage).eventcount []⟩ : TtpStorage)
        = stors.getD cpu emptyStorage from rfl]
    rw [list_set_getD_self]
  | cons c rest ih =>
    intro maxev ncpus clk sup cpu stors hclk hcpu hcap hlen
    have hcpu_len : cpu < stors.length := by
      by_contra hge
      have : stors.getD cpu emptyStorage = emptyStorage := by
        rw [List.getD_eq_getElem?_getD, List.getElem?_eq_none (by omega)]
        rfl
      rw [this] at hcap hlen
      simp [emptyStorage] at hcap hlen
      omega
    have hstep := ttp_emit_append maxev ncpus clk sup cpu c.id c.tp_sec
      c.tp_nsec stors hclk hcpu (by simp only [List.length_cons] at hcap; omega)
    simp only [emitMany, hstep]
    set stor := stors.getD cpu emptyStorage with hstor
    set stor' : TtpStorage :=
      ⟨stor.eventcount + 1,
       stor.events.set stor.eventcount ⟨c.id, mkAbstime c.tp_sec c.tp_nsec⟩⟩
      with hstor'
    have hget' : (stors.set cpu stor').getD cpu emptyStorage = stor' :=
      list_getD_set_self stors cpu stor' emptyStorage hcpu_len
    have hcap1 : stor'.eventcount = stor.eventcount + 1 := rfl
    have hlen1 : stor'.events.length = stor.events.length := by
      show (stor.events.set stor.eventcount _).length = _
      simp
    have hrec := ih maxev ncpus clk sup cpu (stors.set cpu stor') hclk hcpu
      (by rw [hget']; simp only [List.length_cons] at hcap; omega)
      (by rw [hget', hlen1]; exact hlen)
    rw [hrec, hget']
    have harith : stor.eventcount + 1 + rest.length
        = stor.eventcount + (rest.length + 1) := by omega
    simp only [hstor', List.set_set, List.map_cons, List.length_cons]
    rw [harith]
    rfl

/-- C1: for every sequence of `emit(event_id)` calls on a single CPU while
armed (with a valid clock) and under capacity — starting from an empty
shard, so that `count < capacity` holds before each call — the shard count
afterwards equals the number of calls and slots `0..count-1` hold, in call
order, exactly the records of the calls (in particular the ids passed). -/
theorem ttp_emit_sequence_spec (maxev ncpus : Nat) (clk : Int)
    (sup cpu : Nat) (stors : List TtpStorage) (calls : List EmitCall)
    (hclk : clk = CLOCK_REALTIME ∨ clk = CLOCK_MONOTONIC)
    (hcpu : cpu < ncpus)
    (hcount : (stors.getD cpu emptyStorage).eventcount = 0)
    (hcap : calls.length ≤ maxev)
    (hlen : (stors.getD cpu emptyStorage).events.length = maxev) :
    ∃ stors',
      (emitMany cpu ⟨maxev, true, ncpus, some stors, clk, sup⟩ calls).1.storage
        = some stors' ∧
      (stors'.getD cpu emptyStorage).eventcount = calls.length ∧
      ∀ j, j < calls.length →
        (stors'.getD cpu emptyStorage).events.getD j zeroEvent
          = evOf (calls.getD j ⟨0, 0, 0⟩) := by
  have hall := emitMany_append calls maxev ncpus clk sup cpu stors hclk hcpu
    (by omega) (by omega)
  refine ⟨stors.set cpu
      ⟨(stors.getD cpu emptyStorage).eventcount + calls.length,
       writeFrom (stors.getD cpu emptyStorage).events
         (stors.getD cpu emptyStorage).eventcount (calls.map evOf)⟩,
    by rw [hall], ?_⟩
  by_cases hcl : cpu < stors.length
  · rw [list_getD_set_self _ _ _ _ hcl]
    refine ⟨by simpa using hcount, ?_⟩
    intro j hj
    have hj' : j < (calls.map evOf).length := by simpa using hj
    have := writeFrom_getD (calls.map evOf)
      (stors.getD cpu emptyStorage).events
      (stors.getD cpu emptyStorage).eventcount j hj'
      (by rw [hcount, Nat.zero_add, List.length_map, hlen]; exact hcap)
    rw [hcount] at this
    simp only [Nat.zero_add] at this
    rw [hcount, Nat.zero_add] at *
    show (writeFrom (stors.getD cpu emptyStorage).events 0
      (calls.map evOf)).getD j zeroEvent = _
    rw [show (writeFrom (stors.getD cpu emptyStorage).events 0
        (calls.map evOf)).getD j zeroEvent
      = (calls.map evOf).getD j zeroEvent from this]
    rw [List.getD_eq_getElem _ _ hj', List.getElem_map,
      List.getD_eq_getElem _ _ hj]
  · -- the defensive corner: the shard index is outside the table; then the
    -- capacity `maxev` must be 0, so the sequence is empty.
    have hnone : stors.getD cpu emptyStorage = emptyStorage := by
      rw [List.getD_eq_getElem?_getD, List.getElem?_eq_none (by omega)]
      rfl
    have hmax0 : maxev = 0 := by
      rw [hnone] at hlen; simpa [emptyStorage] using hlen.symm
    have hcalls : calls = [] := by
      cases calls with
      | nil => rfl
      | cons a t => simp [hmax0] at hcap
    subst hcalls
    rw [List.set_eq_of_length_le (show stors.length ≤ cpu from by omega), hnone]
    simp [emptyStorage]

/-- Witness for C1 at a concrete two-call run. -/
theorem ttp_emit_sequence_spec_witness :
    ∃ stors',
      (emitMany 0 ⟨2, true, 1, some [⟨0, [⟨0, 0⟩, ⟨0, 0⟩]⟩], CLOCK_REALTIME, 0⟩
        [⟨5, 1, 2⟩, ⟨7, 1, 3⟩]).1.storage = some stors' ∧
      (stors'.getD 0 emptyStorage).eventcount = 2 ∧
      ∀ j, j < 2 →
        (stors'.getD 0 emptyStorage).events.getD j zeroEvent
          = evOf (([⟨5, 1, 2⟩, ⟨7, 1, 3⟩] : List EmitCall).getD j ⟨0, 0, 0⟩) :=
  ttp_emit_sequence_spec 2 1 CLOCK_REALTIME 0 0 _ _ (Or.inl rfl)
    (by decide) (by decide) (by decide) (by decide)

/-- Cumulative effect of armed `ttp_emit` calls on a full shard (amended
C2): the storage, including every count and slot, is untouched; the 8-bit
`suppress_error` counter advances by the number of drops modulo 256; and
the drop warning is printed at exactly those drops where the counter is 0
at the time — i.e. once every 256 consecutive drops, not exactly once. -/
theorem ttp_emit_saturation_spec (calls : List EmitCall) (maxev ncpus : Nat)
    (clk : Int) (sup cpu : Nat) (stors : List TtpStorage)
    (hclk : clk = CLOCK_REALTIME ∨ clk = CLOCK_MONOTONIC)
    (hcpu : cpu < ncpus) (hsup : sup < 256)
    (hful : maxev ≤ (stors.getD cpu emptyStorage).eventcount) :
    emitMany cpu ⟨maxev, true, ncpus, some stors, clk, sup⟩ calls =
      (⟨maxev, true, ncpus, some stors, clk, (sup + calls.length) % 256⟩,
       (List.range calls.length).map
         (fun i => if (sup + i) % 256 = 0 then EmitLog.maxEventsReached
                   else EmitLog.noLog)) := by
  induction calls generalizing sup with
  | nil =>
    simp only [emitMany, List.length_nil, List.range_zero, List.map_nil,
      Nat.add_zero, Nat.mod_eq_of_lt hsup]
  | cons c rest ih =>
    have hstep := ttp_emit_drop maxev ncpus clk sup cpu c.id c.tp_sec
      c.tp_nsec stors hclk hcpu hful
    have hrec := ih ((sup + 1) % 256) (Nat.mod_lt _ (by omega))
    simp only [emitMany, hstep, hrec, List.length_cons]
    have key : ∀ i : Nat, ((sup + 1) % 256 + i) % 256 = (sup + (i + 1)) % 256 :=
      fun i => by omega
    congr 1
    · congr 1
      omega
    · rw [List.range_succ_eq_map, List.map_cons, List.map_map]
      congr 1
      · simp only [Nat.add_zero, Nat.mod_eq_of_lt hsup]
      · refine List.map_congr_left (fun i _ => ?_)
        simp only [Function.comp_apply, key, Nat.succ_eq_add_one]

/-- Witness for the amended C2 at a concrete three-drop run on a
zero-capacity shard. -/
theorem ttp_emit_saturation_spec_witness :
    emitMany 0 ⟨0, true, 1, some [⟨0, []⟩], CLOCK_REALTIME, 0⟩
        (List.replicate 3 ⟨1, 0, 0⟩) =
      (⟨0, true, 1, some [⟨0, []⟩], CLOCK_REALTIME,
        (0 + (List.replicate 3 (⟨1, 0, 0⟩ : EmitCall)).length) % 256⟩,
       (List.range (List.replicate 3 (⟨1, 0, 0⟩ : EmitCall)).length).map
         (fun i => if (0 + i) % 256 = 0 then EmitLog.maxEventsReached
                   else EmitLog.noLog)) :=
  ttp_emit_saturation_spec _ 0 1 CLOCK_REALTIME 0 0 _ (Or.inl rfl)
    (by decide) (by decide) (by decide)

set_option maxRecDepth 20000 in
/-- Counterexample to C2 as stated: 257 consecutive drops on a full shard
print the "Max Events reached" warning twice, because the `unsigned char`
suppression counter wraps to 0 after 256 increments; the claim says
exactly one warning regardless of how many drops occur. -/
theorem ttp_emit_drop_warning_counterexample :
    ((emitMany 0 ⟨0, true, 1, some [⟨0, []⟩], CLOCK_REALTIME, 0⟩
        (List.replicate 257 ⟨1, 0, 0⟩)).2.count EmitLog.maxEventsReached = 2)
      ∧ (2 : Nat) ≠ 1 := by
  constructor
  · rfl
  · decide

theorem resetLoop_eq_map (stors : List TtpStorage) :
    resetLoop stors stors.length
      = stors.map (fun st => ⟨0, st.events⟩) := by
  induction stors with
  | nil => rfl
  | cons st rest ih => simpa [resetLoop] using ih

/-- Amended C4: the source matches tokens with
`strncmp(input, cmd, len)` where `len` is the truncated length of the raw
input *before* trimming; a token is accepted as a command exactly when the
trailing-trimmed input agrees with the command on the first `len` bytes
(so every prefix of a command is accepted, see the counterexample).  Any
input that matches none of the five commands under this rule is rejected
with the invalid-command error and leaves the whole state — `armed`,
`clock_mode` and every shard — unchanged. -/
theorem ttp_write_unknown_token_spec (s : TtpState) (stors : List TtpStorage)
    (data : List Char) (hs : s.storage = some stors)
    (hnone : ∀ cmd ∈ [("start".toList : List Char), "stop".toList,
      "reset".toList, "0".toList, "1".toList], matchCmd data cmd = false) :
    ttp_write s data true = (s, .einval) := by
  have h1 := hnone "start".toList (by simp)
  have h2 := hnone "stop".toList (by simp)
  have h3 := hnone "reset".toList (by simp)
  have h4 := hnone "0".toList (by simp)
  have h5 := hnone "1".toList (by simp)
  simp only [matchCmd] at h1 h2 h3 h4 h5
  simp only [ttp_write, hs]
  rw [if_neg (by simp : ¬ ((true : Bool) = false)),
    if_neg (by rw [h1]; simp), if_neg (by rw [h2]; simp),
    if_neg (by rw [h3]; simp), if_neg (by rw [h4]; simp),
    if_neg (by rw [h5]; simp)]

/-- Witness for the amended C4: the token "bogus" is rejected without
side effects. -/
theorem ttp_write_unknown_token_spec_witness :
    ttp_write ⟨4, false, 1, some [⟨0, []⟩], CLOCK_REALTIME, 0⟩
        "bogus".toList true
      = (⟨4, false, 1, some [⟨0, []⟩], CLOCK_REALTIME, 0⟩, .einval) :=
  ttp_write_unknown_token_spec _ [⟨0, []⟩] _ rfl (by decide)

/-- Counterexample to C4 as stated: the one-byte token "s" is not in the
command set {start, stop, reset, 0, 1}, yet
`strncmp(input, "start", len)` with `len = 1` compares only one byte, so
"s" is accepted as `start`: it arms capture and returns success instead of
the claimed invalid-command rejection with no side effects. -/
theorem ttp_write_prefix_token_counterexample :
    ttp_write ⟨4, false, 1, some [⟨0, []⟩], CLOCK_REALTIME, 0⟩ ['s'] true
      = (⟨4, true, 1, some [⟨0, []⟩], CLOCK_REALTIME, 0⟩, .ok 1)
    ∧ (['s'] ≠ "start".toList ∧ ['s'] ≠ "stop".toList
       ∧ ['s'] ≠ "reset".toList ∧ ['s'] ≠ "0".toList ∧ ['s'] ≠ "1".toList)
    ∧ WriteRes.ok 1 ≠ WriteRes.einval := by
  decide

/-- C5: `reset` while armed is rejected with the invalid-state error and
leaves everything unchanged; `reset` while disarmed zeroes every shard
count in place, leaving the slot arrays, the capacity, `armed` and
`clock_mode` untouched. -/
theorem ttp_write_reset_spec (maxev : Nat) (en : Bool) (ncpus : Nat)
    (stors : List TtpStorage) (clk : Int) (sup : Nat)
    (hlen : stors.length = ncpus) :
    (en = true →
      ttp_write ⟨maxev, en, ncpus, some stors, clk, sup⟩ "reset".toList true
        = (⟨maxev, en, ncpus, some stors, clk, sup⟩, .einval)) ∧
    (en = false →
      ttp_write ⟨maxev, en, ncpus, some stors, clk, sup⟩ "reset".toList true
        = (⟨maxev, en, ncpus, some (stors.map (fun st => ⟨0, st.events⟩)),
            clk, sup⟩, .ok 5)) := by
  constructor
  · intro h; subst h; rfl
  · intro h; subst h
    rw [show ttp_write ⟨maxev, false, ncpus, some stors, clk, sup⟩
        "reset".toList true
      = (⟨maxev, false, ncpus, some (resetLoop stors ncpus), clk, sup⟩,
         .ok 5) from rfl]
    rw [← hlen, resetLoop_eq_map]

/-- Witness for C5: one armed rejection and one disarmed zeroing run. -/
theorem ttp_write_reset_spec_witness :
    ttp_write ⟨2, true, 1, some [⟨1, [⟨5, 9⟩]⟩], CLOCK_REALTIME, 0⟩
        "reset".toList true
      = (⟨2, true, 1, some [⟨1, [⟨5, 9⟩]⟩], CLOCK_REALTIME, 0⟩, .einval)
    ∧ ttp_write ⟨2, false, 1, some [⟨1, [⟨5, 9⟩]⟩], CLOCK_REALTIME, 0⟩
        "reset".toList true
      = (⟨2, false, 1,
          some (([⟨1, [⟨5, 9⟩]⟩] : List TtpStorage).map
            (fun st => ⟨0, st.events⟩)), CLOCK_REALTIME, 0⟩, .ok 5) :=
  ⟨(ttp_write_reset_spec 2 true 1 [⟨1, [⟨5, 9⟩]⟩] CLOCK_REALTIME 0 rfl).1 rfl,
   (ttp_write_reset_spec 2 false 1 [⟨1, [⟨5, 9⟩]⟩] CLOCK_REALTIME 0 rfl).2 rfl⟩

/-- C7: `start` on an already-armed state returns the busy error and
changes nothing; `stop` never fails, always leaves the state disarmed,
and is idempotent (a second `stop` gives exactly the same state and
result). -/
theorem ttp_write_start_stop_spec (maxev : Nat) (en : Bool) (ncpus : Nat)
    (stors : List TtpStorage) (clk : Int) (sup : Nat) :
    (en = true →
      ttp_write ⟨maxev, en, ncpus, some stors, clk, sup⟩ "start".toList true
        = (⟨maxev, en, ncpus, some stors, clk, sup⟩, .ebusy)) ∧
    (ttp_write ⟨maxev, en, ncpus, some stors, clk, sup⟩ "stop".toList true
      = (⟨maxev, false, ncpus, some stors, clk, sup⟩, .ok 4)) ∧
    (ttp_write (ttp_write ⟨maxev, en, ncpus, some stors, clk, sup⟩
        "stop".toList true).1 "stop".toList true
      = ttp_write ⟨maxev, en, ncpus, some stors, clk, sup⟩
        "stop".toList true) := by
  refine ⟨fun h => ?_, rfl, rfl⟩
  subst h; rfl

theorem wf_getD {stors : List TtpStorage} (h : WfStorage stors) (i : Nat) :
    (stors.getD i emptyStorage).eventcount
      ≤ (stors.getD i emptyStorage).events.length := by
  rw [List.getD_eq_getElem?_getD]
  cases hi : stors[i]? with
  | none => simp [emptyStorage]
  | some stor => exact h stor (List.getElem?_mem hi)

theorem shardLines_length {stors : List TtpStorage} (h : WfStorage stors)
    (i : Nat) :
    (shardLines i (stors.getD i emptyStorage)).length
      = (stors.getD i emptyStorage).eventcount := by
  have hwf := wf_getD h i
  simp only [shardLines, List.length_map, List.length_take]
  omega

theorem ttp_read_loop_end {stors : List TtpStorage} {ncpus : Nat}
    {copyOk : Bool} {fpos : Fpos} (h : ncpus ≤ fpos.cpu) :
    ttp_read_loop stors ncpus copyOk fpos = (.eof, fpos) := by
  rw [ttp_read_loop, if_pos h]

theorem drainSuffix_end {stors : List TtpStorage} {ncpus : Nat}
    {fpos : Fpos} (h : ncpus ≤ fpos.cpu) :
    drainSuffix stors ncpus fpos = [] := by
  rw [drainSuffix, if_pos h]

/-- When nothing is left to drain, the loop walks to the end of the shard
table and reports end-of-stream. -/
theorem ttp_read_loop_of_drain_nil (k : Nat) :
    ∀ (stors : List TtpStorage) (ncpus : Nat) (copyOk : Bool) (fpos : Fpos),
      ncpus - fpos.cpu ≤ k → ValidPos stors ncpus fpos → WfStorage stors →
      drainSuffix stors ncpus fpos = [] →
      ∃ f', ttp_read_loop stors ncpus copyOk fpos = (.eof, f')
        ∧ f'.cpu = ncpus := by
  induction k with
  | zero =>
    intro stors ncpus copyOk fpos hk hv _ _
    exact ⟨fpos, ttp_read_loop_end (by omega), by have := hv.1; omega⟩
  | succ k ih =>
    intro stors ncpus copyOk fpos hk hv hw hd
    by_cases hle : ncpus ≤ fpos.cpu
    · exact ⟨fpos, ttp_read_loop_end hle, by have := hv.1; omega⟩
    · have hcpu : fpos.cpu < ncpus := by omega
      rw [drainSuffix, if_neg hle] at hd
      obtain ⟨hd1, hd2⟩ := List.append_eq_nil.mp hd
      have hlinelen := shardLines_length hw fpos.cpu
      have hdroplen : (shardLines fpos.cpu
          (stors.getD fpos.cpu emptyStorage)).length ≤ fpos.event := by
        by_contra hlt
        rw [List.drop_eq_nil_iff] at hd1
        omega
      have hev : fpos.event
          = (stors.getD fpos.cpu emptyStorage).eventcount := by
        have := hv.2 hcpu
        omega
      have hstep : ttp_read_loop stors ncpus copyOk fpos
          = ttp_read_loop stors ncpus copyOk ⟨fpos.cpu + 1, 0⟩ := by
        rw [ttp_read_loop, if_neg hle, if_pos hev]
      obtain ⟨f', hf', hfc⟩ := ih stors ncpus copyOk ⟨fpos.cpu + 1, 0⟩
        (by simp; omega) ⟨by simp; omega, fun _ => Nat.zero_le _⟩ hw hd2
      exact ⟨f', hstep.trans hf', hfc⟩

/-- When at least one line is left to drain, the loop returns exactly the
next pending line (or the copy-failure error), taken from a slot strictly
below the owning shard count, and advances the cursor past it. -/
theorem ttp_read_loop_of_drain_cons (k : Nat) :
    ∀ (stors : List TtpStorage) (ncpus : Nat) (copyOk : Bool) (fpos : Fpos)
      (l : String) (rest : List String),
      ncpus - fpos.cpu ≤ k → ValidPos stors ncpus fpos → WfStorage stors →
      drainSuffix stors ncpus fpos = l :: rest →
      ∃ c e, ttp_read_loop stors ncpus copyOk fpos
          = ((if copyOk then ReadRes.line l else ReadRes.einval), ⟨c, e + 1⟩)
        ∧ c < ncpus
        ∧ e < (stors.getD c emptyStorage).eventcount
        ∧ l = formatLine
            ((stors.getD c emptyStorage).events.getD e zeroEvent).id c
            ((stors.getD c emptyStorage).events.getD e zeroEvent).abstime
        ∧ drainSuffix stors ncpus ⟨c, e + 1⟩ = rest
        ∧ ValidPos stors ncpus ⟨c, e + 1⟩ := by
  induction k with
  | zero =>
    intro stors ncpus copyOk fpos l rest hk _ _ hd
    rw [drainSuffix_end (by omega)] at hd
    exact absurd hd (by simp)
  | succ k ih =>
    intro stors ncpus copyOk fpos l rest hk hv hw hd
    by_cases hle : ncpus ≤ fpos.cpu
    · rw [drainSuffix_end hle] at hd
      exact absurd hd (by simp)
    · have hcpu : fpos.cpu < ncpus := by omega
      rw [drainSuffix, if_neg hle] at hd
      have hlinelen := shardLines_length hw fpos.cpu
      by_cases hev : fpos.event
          = (stors.getD fpos.cpu emptyStorage).eventcount
      · have hdrop : (shardLines fpos.cpu
            (stors.getD fpos.cpu emptyStorage)).drop fpos.event = [] := by
          rw [List.drop_eq_nil_iff]
          omega
        rw [hdrop, List.nil_append] at hd
        have hstep : ttp_read_loop stors ncpus copyOk fpos
            = ttp_read_loop stors ncpus copyOk ⟨fpos.cpu + 1, 0⟩ := by
          rw [ttp_read_loop, if_neg hle, if_pos hev]
        obtain ⟨c, e, h1, h2, h3, h4, h5, h6⟩ := ih stors ncpus copyOk
          ⟨fpos.cpu + 1, 0⟩ l rest (by simp; omega)
          ⟨by simp; omega, fun _ => Nat.zero_le _⟩ hw hd
        exact ⟨c, e, hstep.trans h1, h2, h3, h4, h5, h6⟩
      · have hevlt : fpos.event
            < (stors.getD fpos.cpu emptyStorage).eventcount :=
          Nat.lt_of_le_of_ne (hv.2 hcpu) hev
        have hwf := wf_getD hw fpos.cpu
        have hsl : fpos.event < (shardLines fpos.cpu
            (stors.getD fpos.cpu emptyStorage)).length := by omega
        have hdrop := List.drop_eq_getElem_cons hsl
        rw [hdrop, List.cons_append] at hd
        have hget : (shardLines fpos.cpu
              (stors.getD fpos.cpu emptyStorage))[fpos.event]
            = formatLine
              ((stors.getD fpos.cpu emptyStorage).events.getD fpos.event
                zeroEvent).id
              fpos.cpu
              ((stors.getD fpos.cpu emptyStorage).events.getD fpos.event
                zeroEvent).abstime := by
          simp only [shardLines, List.getElem_map, List.getElem_take]
          have hlt : fpos.event
              < (stors.getD fpos.cpu emptyStorage).events.length := by omega
          rw [List.getD_eq_getElem _ _ hlt]
        have hl : l = formatLine
            ((stors.getD fpos.cpu emptyStorage).events.getD fpos.event
              zeroEvent).id
            fpos.cpu
            ((stors.getD fpos.cpu emptyStorage).events.getD fpos.event
              zeroEvent).abstime := by
          have := (List.cons.injEq _ _ _ _).mp hd
          rw [← this.1, hget]
        have hrest : drainSuffix stors ncpus ⟨fpos.cpu, fpos.event + 1⟩
            = rest := by
          rw [drainSuffix, if_neg hle]
          have := (List.cons.injEq _ _ _ _).mp hd
          exact this.2
        have hstep : ttp_read_loop stors ncpus copyOk fpos
            = ((if copyOk then ReadRes.line l else ReadRes.einval),
               ⟨fpos.cpu, fpos.event + 1⟩) := by
          rw [ttp_read_loop, if_neg hle, if_neg hev, ← hl]
        exact ⟨fpos.cpu, fpos.event, hstep, hcpu, hevlt, hl, hrest,
          ⟨show fpos.cpu ≤ ncpus from by omega,
           fun _ => show fpos.event + 1
             ≤ (stors.getD fpos.cpu emptyStorage).eventcount from by omega⟩⟩

theorem drainSuffix_eq_range' (k : Nat) :
    ∀ (stors : List TtpStorage) (ncpus c : Nat), ncpus - c ≤ k →
      drainSuffix stors ncpus ⟨c, 0⟩
        = (List.range' c (ncpus - c)).flatMap
            (fun i => shardLines i (stors.getD i emptyStorage)) := by
  induction k with
  | zero =>
    intro stors ncpus c hk
    rw [drainSuffix_end (show ncpus ≤ c from by omega)]
    rw [show ncpus - c = 0 from by omega]
    rfl
  | succ k ih =>
    intro stors ncpus c hk
    by_cases hle : ncpus ≤ c
    · rw [drainSuffix_end (show ncpus ≤ (⟨c, 0⟩ : Fpos).cpu from hle)]
      rw [Nat.sub_eq_zero_of_le hle]
      rfl
    · rw [drainSuffix, if_neg (show ¬ ncpus ≤ (⟨c, 0⟩ : Fpos).cpu from hle)]
      rw [show ncpus - c = (ncpus - (c + 1)) + 1 from by omega,
        List.range'_succ, List.flatMap_cons]
      have := ih stors ncpus (c + 1) (by omega)
      simp only [List.drop_zero]
      rw [show ((⟨c, 0⟩ : Fpos).cpu + 1) = c + 1 from rfl, this]

theorem drainSuffix_zero (stors : List TtpStorage) (ncpus : Nat) :
    drainSuffix stors ncpus ⟨0, 0⟩ = drainAll stors ncpus := by
  rw [drainSuffix_eq_range' ncpus stors ncpus 0 (by omega), drainAll,
    Nat.sub_zero, List.range_eq_range']

theorem take_append_replicate {α : Type} (xs : List α) (a : α)
    (n m m' : Nat) (h : n ≤ m) (h' : n ≤ m') :
    (xs ++ List.replicate m a).take n = (xs ++ List.replicate m' a).take n := by
  rw [List.take_append_eq_append_take, List.take_append_eq_append_take]
  congr 1
  rw [List.take_replicate, List.take_replicate]
  congr 1
  omega

/-- The observable behaviour of a disarmed drain session: `n` successive
reads deliver the pending lines in order, then end-of-stream forever. -/
theorem readTrace_drain (maxev ncpus : Nat) (stors : List TtpStorage)
    (clk : Int) (sup size : Nat) (hsize : 128 ≤ size)
    (hw : WfStorage stors) :
    ∀ (n : Nat) (fpos : Fpos), ValidPos stors ncpus fpos →
      readTrace ⟨maxev, false, ncpus, some stors, clk, sup⟩ size true fpos n
        = ((drainSuffix stors ncpus fpos).map ReadRes.line
            ++ List.replicate n ReadRes.eof).take n := by
  have hread : ∀ f : Fpos,
      ttp_read ⟨maxev, false, ncpus, some stors, clk, sup⟩ f size true
        = ttp_read_loop stors ncpus true f := by
    intro f
    simp only [ttp_read]
    rw [if_neg (by simp), if_neg (by omega)]
  intro n
  induction n with
  | zero => intro fpos _; rfl
  | succ n ih =>
    intro fpos hv
    cases hd : drainSuffix stors ncpus fpos with
    | nil =>
      obtain ⟨f', hf', hfc⟩ := ttp_read_loop_of_drain_nil ncpus stors ncpus
        true fpos (by omega) hv hw hd
      simp only [readTrace, hread, hf']
      rw [ih f' ⟨Nat.le_of_eq hfc, fun hlt => absurd hlt (by omega)⟩,
        drainSuffix_end (Nat.le_of_eq hfc.symm)]
      simp [List.replicate_succ]
    | cons l rest =>
      obtain ⟨c, e, hstep, _, _, _, hrest, hv'⟩ :=
        ttp_read_loop_of_drain_cons ncpus stors ncpus true fpos l rest
          (by omega) hv hw hd
      simp only [readTrace, hread, hstep, if_true]
      rw [ih ⟨c, e + 1⟩ hv', hrest]
      simp only [List.map_cons, List.cons_append, List.take_succ_cons]
      rw [take_append_replicate (rest.map ReadRes.line) ReadRes.eof n n (n + 1)
        (by omega) (by omega)]

/-- C3: for a session of a disarmed state (with well-formed storage,
adequate buffer size and successful copies), successive reads starting
from the fresh cursor (0,0) deliver one formatted line
(`"%u,%u,%llu\n"` = `formatLine event_id shard_index timestamp`) per
call, enumerating shards in index order and events in slot order and
skipping empty shards, and once all shards are exhausted every further
read returns end-of-stream (zero bytes), idempotently. -/
theorem ttp_read_drain_spec (maxev ncpus : Nat) (stors : List TtpStorage)
    (clk : Int) (sup size n : Nat) (hsize : 128 ≤ size)
    (hw : WfStorage stors) :
    readTrace ⟨maxev, false, ncpus, some stors, clk, sup⟩ size true ⟨0, 0⟩ n
      = ((drainAll stors ncpus).map ReadRes.line
          ++ List.replicate n ReadRes.eof).take n := by
  rw [readTrace_drain maxev ncpus stors clk sup size hsize hw n ⟨0, 0⟩
    ⟨Nat.zero_le _, fun _ => Nat.zero_le _⟩, drainSuffix_zero]

/-- Witness for C3: a two-shard state (one shard with two events, one
with one event, drained over five reads: three lines then two eofs). -/
theorem ttp_read_drain_spec_witness :
    readTrace ⟨2, false, 2, some [⟨2, [⟨5, 100⟩, ⟨7, 200⟩]⟩, ⟨1, [⟨9, 50⟩, ⟨0, 0⟩]⟩],
        CLOCK_REALTIME, 0⟩ 128 true ⟨0, 0⟩ 5
      = ((drainAll [⟨2, [⟨5, 100⟩, ⟨7, 200⟩]⟩, ⟨1, [⟨9, 50⟩, ⟨0, 0⟩]⟩] 2).map
          ReadRes.line ++ List.replicate 5 ReadRes.eof).take 5 :=
  ttp_read_drain_spec 2 2 [⟨2, [⟨5, 100⟩, ⟨7, 200⟩]⟩, ⟨1, [⟨9, 50⟩, ⟨0, 0⟩]⟩]
    CLOCK_REALTIME 0 128 5 (by omega) (by unfold WfStorage; decide)

/-- Amended C6: with the storage allocated, a read while armed always
fails busy, regardless of buffer contents or size; a read while
*disarmed* whose buffer is smaller than the 128-byte formatted-line bound
fails with insufficient-space; in both cases no line (truncated or
otherwise) is produced and the cursor is returned unchanged.  (The busy
check precedes the size check, so an armed undersized read reports busy,
not insufficient-space as the claim as stated requires — see the
counterexample.) -/
theorem ttp_read_busy_nospc_spec (maxev : Nat) (en : Bool) (ncpus : Nat)
    (stors : List TtpStorage) (clk : Int) (sup : Nat) (fpos : Fpos)
    (size : Nat) (copyOk : Bool) :
    (en = true →
      ttp_read ⟨maxev, en, ncpus, some stors, clk, sup⟩ fpos size copyOk
        = (.ebusy, fpos)) ∧
    (en = false → size < 128 →
      ttp_read ⟨maxev, en, ncpus, some stors, clk, sup⟩ fpos size copyOk
        = (.enospc, fpos)) := by
  constructor
  · intro h; subst h; rfl
  · intro h hs; subst h
    simp only [ttp_read]
    rw [if_neg (by simp), if_pos hs]

/-- Witness for the amended C6: an armed read with a zero-size buffer is
busy; a disarmed read with a 5-byte buffer is insufficient-space. -/
theorem ttp_read_busy_nospc_spec_witness :
    ttp_read ⟨1, true, 1, some [⟨0, []⟩], CLOCK_REALTIME, 0⟩ ⟨0, 0⟩ 0 true
      = (.ebusy, ⟨0, 0⟩)
    ∧ ttp_read ⟨1, false, 1, some [⟨0, []⟩], CLOCK_REALTIME, 0⟩ ⟨0, 0⟩ 5 true
      = (.enospc, ⟨0, 0⟩) :=
  ⟨(ttp_read_busy_nospc_spec 1 true 1 [⟨0, []⟩] CLOCK_REALTIME 0 ⟨0, 0⟩ 0
      true).1 rfl,
   (ttp_read_busy_nospc_spec 1 false 1 [⟨0, []⟩] CLOCK_REALTIME 0 ⟨0, 0⟩ 5
      true).2 rfl (by omega)⟩

/-- Counterexample to C6 as stated: on an armed state, a read with a
zero-size buffer (smaller than the 128-byte bound) returns busy, not the
insufficient-space error the claim requires for every undersized read in
every state. -/
theorem ttp_read_busy_precedence_counterexample :
    (ttp_read ⟨1, true, 1, some [⟨0, []⟩], CLOCK_REALTIME, 0⟩ ⟨0, 0⟩ 0
        true).1 = ReadRes.ebusy
    ∧ ReadRes.ebusy ≠ ReadRes.enospc := by
  decide

/-- Amended C9: from a cursor valid for the current storage (cursor not
past the shard table; event index not past the owning shard count — true
of a fresh cursor, and preserved by every read), a read only returns
records taken from a slot strictly below the owning shard count, and
leaves the cursor valid again.  A `reset` between two reads of an open
session, however, can strand the event index above the now-zero count,
after which the next read formats a slot at or beyond the count (stale
data, or out of bounds when the cursor sits at capacity) — so the claim
as stated, for arbitrary command interleavings, is false; see the
counterexample. -/
theorem ttp_read_slot_bound_spec (maxev ncpus : Nat)
    (stors : List TtpStorage) (clk : Int) (sup size : Nat) (copyOk : Bool)
    (fpos : Fpos) (r : ReadRes) (f' : Fpos)
    (hsize : 128 ≤ size) (hw : WfStorage stors)
    (hv : ValidPos stors ncpus fpos)
    (hr : ttp_read ⟨maxev, false, ncpus, some stors, clk, sup⟩ fpos size
        copyOk = (r, f')) :
    ValidPos stors ncpus f' ∧
    (∀ out, r = ReadRes.line out →
      0 < f'.event
      ∧ f'.event ≤ (stors.getD f'.cpu emptyStorage).eventcount
      ∧ out = formatLine
          ((stors.getD f'.cpu emptyStorage).events.getD (f'.event - 1)
            zeroEvent).id f'.cpu
          ((stors.getD f'.cpu emptyStorage).events.getD (f'.event - 1)
            zeroEvent).abstime) := by
  have hred : ttp_read ⟨maxev, false, ncpus, some stors, clk, sup⟩ fpos size
      copyOk = ttp_read_loop stors ncpus copyOk fpos := by
    simp only [ttp_read]
    rw [if_neg (by simp), if_neg (by omega)]
  rw [hred] at hr
  cases hd : drainSuffix stors ncpus fpos with
  | nil =>
    obtain ⟨f'', hf'', hfc⟩ := ttp_read_loop_of_drain_nil ncpus stors ncpus
      copyOk fpos (by omega) hv hw hd
    rw [hf''] at hr
    injection hr with h1 h2
    subst h2
    refine ⟨⟨Nat.le_of_eq hfc, fun hlt => absurd hlt (by omega)⟩, ?_⟩
    intro out hout
    rw [← h1] at hout
    exact absurd hout (by simp)
  | cons l rest =>
    obtain ⟨c, e, hstep, hc, he, hl, _, hv'⟩ :=
      ttp_read_loop_of_drain_cons ncpus stors ncpus copyOk fpos l rest
        (by omega) hv hw hd
    rw [hstep] at hr
    injection hr with h1 h2
    subst h2
    refine ⟨hv', ?_⟩
    intro out hout
    rw [← h1] at hout
    cases copyOk with
    | false => exact absurd hout (by simp)
    | true =>
      simp only [if_true] at hout
      have hlout : l = out := by
        have := (ReadRes.line.injEq _ _).mp hout.symm
        exact this.symm
      refine ⟨show 0 < e + 1 from by omega,
        show e + 1 ≤ (stors.getD c emptyStorage).eventcount from by omega, ?_⟩
      show out = formatLine
        ((stors.getD c emptyStorage).events.getD (e + 1 - 1) zeroEvent).id c
        ((stors.getD c emptyStorage).events.getD (e + 1 - 1) zeroEvent).abstime
      rw [show e + 1 - 1 = e from rfl, ← hlout, hl]

/-- Witness for the amended C9: a valid-cursor read returns the slot-0
record of a one-event shard and the advanced cursor stays valid. -/
theorem ttp_read_slot_bound_spec_witness :
    ValidPos [⟨1, [⟨5, 100⟩]⟩] 1 ⟨0, 1⟩ ∧
    (∀ out, ReadRes.line (formatLine 5 0 100) = ReadRes.line out →
      0 < (⟨0, 1⟩ : Fpos).event
      ∧ (⟨0, 1⟩ : Fpos).event
        ≤ (([⟨1, [⟨5, 100⟩]⟩] : List TtpStorage).getD (⟨0, 1⟩ : Fpos).cpu
            emptyStorage).eventcount
      ∧ out = formatLine
          ((([⟨1, [⟨5, 100⟩]⟩] : List TtpStorage).getD (⟨0, 1⟩ : Fpos).cpu
              emptyStorage).events.getD ((⟨0, 1⟩ : Fpos).event - 1)
            zeroEvent).id (⟨0, 1⟩ : Fpos).cpu
          ((([⟨1, [⟨5, 100⟩]⟩] : List TtpStorage).getD (⟨0, 1⟩ : Fpos).cpu
              emptyStorage).events.getD ((⟨0, 1⟩ : Fpos).event - 1)
            zeroEvent).abstime) :=
  ttp_read_slot_bound_spec 1 1 [⟨1, [⟨5, 100⟩]⟩] CLOCK_REALTIME 0 128 true
    ⟨0, 0⟩ (ReadRes.line (formatLine 5 0 100)) ⟨0, 1⟩ (by omega)
    (by unfold WfStorage; decide) (by unfold ValidPos; decide)
    (by simp [ttp_read, ttp_read_loop])

/-- Counterexample to C9 as stated: with one shard of capacity 2 holding
one live record (slot 1 retains a stale record from an earlier session),
a session reads the record, then a `reset` — legal between reads, since
reads require disarmed — zeroes the count, and the next read of the same
session formats slot 1 of a shard whose count is 0: a record taken from a
slot index NOT strictly below the owning shard's current count. -/
theorem ttp_read_stale_slot_counterexample :
    ttp_read ⟨2, false, 1, some [⟨1, [⟨5, 100⟩, ⟨7, 200⟩]⟩], CLOCK_REALTIME, 0⟩
        ⟨0, 0⟩ 128 true
      = (.line (formatLine 5 0 100), ⟨0, 1⟩)
    ∧ (ttp_write ⟨2, false, 1, some [⟨1, [⟨5, 100⟩, ⟨7, 200⟩]⟩],
          CLOCK_REALTIME, 0⟩ "reset".toList true)
      = (⟨2, false, 1, some [⟨0, [⟨5, 100⟩, ⟨7, 200⟩]⟩], CLOCK_REALTIME, 0⟩,
         .ok 5)
    ∧ ttp_read ⟨2, false, 1, some [⟨0, [⟨5, 100⟩, ⟨7, 200⟩]⟩],
          CLOCK_REALTIME, 0⟩ ⟨0, 1⟩ 128 true
      = (.line (formatLine 7 0 200), ⟨0, 2⟩)
    ∧ ¬ ((2 : Nat) - 1
        < (([⟨0, [⟨5, 100⟩, ⟨7, 200⟩]⟩] : List TtpStorage).getD 0
            emptyStorage).eventcount) := by
  refine ⟨?_, by decide, ?_, by decide⟩
  · simp [ttp_read, ttp_read_loop]
  · simp [ttp_read, ttp_read_loop]

/-- C10: when the copy to the user buffer fails during a read that had a
record to deliver, the call reports the error, yet the cursor has already
advanced past that record, so the session's remaining stream is exactly
the rest — later successful reads deliver only the records after the
failed one, which is never delivered to this session (the error is not
atomic). -/
theorem ttp_read_copy_fail_advances_spec (maxev ncpus : Nat)
    (stors : List TtpStorage) (clk : Int) (sup size n : Nat)
    (fpos : Fpos) (l : String) (rest : List String)
    (hsize : 128 ≤ size) (hw : WfStorage stors)
    (hv : ValidPos stors ncpus fpos)
    (hd : drainSuffix stors ncpus fpos = l :: rest) :
    ∃ f', ttp_read ⟨maxev, false, ncpus, some stors, clk, sup⟩ fpos size false
        = (.einval, f')
      ∧ drainSuffix stors ncpus f' = rest
      ∧ readTrace ⟨maxev, false, ncpus, some stors, clk, sup⟩ size true f' n
        = ((rest.map ReadRes.line) ++ List.replicate n ReadRes.eof).take n := by
  obtain ⟨c, e, hstep, _, _, _, hrest, hv'⟩ :=
    ttp_read_loop_of_drain_cons ncpus stors ncpus false fpos l rest
      (by omega) hv hw hd
  have hred : ttp_read ⟨maxev, false, ncpus, some stors, clk, sup⟩ fpos size
      false = ttp_read_loop stors ncpus false fpos := by
    simp only [ttp_read]
    rw [if_neg (by simp), if_neg (by omega)]
  refine ⟨⟨c, e + 1⟩, ?_, hrest, ?_⟩
  · rw [hred, hstep]
    simp
  · rw [readTrace_drain maxev ncpus stors clk sup size hsize hw n ⟨c, e + 1⟩
      hv', hrest]

/-- Witness for C10 on a one-record shard: the failed read skips the only
record and the next read is already end-of-stream. -/
theorem ttp_read_copy_fail_advances_spec_witness :
    ∃ f', ttp_read ⟨1, false, 1, some [⟨1, [⟨5, 100⟩]⟩], CLOCK_REALTIME, 0⟩
        ⟨0, 0⟩ 128 false
        = (.einval, f')
      ∧ drainSuffix [⟨1, [⟨5, 100⟩]⟩] 1 f' = []
      ∧ readTrace ⟨1, false, 1, some [⟨1, [⟨5, 100⟩]⟩], CLOCK_REALTIME, 0⟩
          128 true f' 1
        = ((([] : List String).map ReadRes.line)
            ++ List.replicate 1 ReadRes.eof).take 1 :=
  ttp_read_copy_fail_advances_spec 1 1 [⟨1, [⟨5, 100⟩]⟩] CLOCK_REALTIME 0 128
    1 ⟨0, 0⟩ (formatLine 5 0 100) [] (by omega) (by unfold WfStorage; decide)
    (by unfold ValidPos; decide)
    (by rw [show (⟨0, 0⟩ : Fpos) = (⟨0, 0⟩ : Fpos) from rfl, drainSuffix_zero]
        decide)

/-- C8 is a code bug: with 2 CPUs, the table allocation succeeding and
the second shard allocation failing, `ttp_init` returns `-ENOMEM` while
still holding both the shard table and the first shard's event buffer.
The claim (and the spec) require every previously allocated resource to
be released before returning; the source itself marks the omission with
its "fixme - misses unrolling" comment. -/
theorem ttp_init_leak_on_failure :
    ttp_init 2 true (fun i => i == 0) 0 = ⟨-12, true, 1⟩
    ∧ ¬ ((⟨-12, true, 1⟩ : InitResult).tableHeld = false
         ∧ (⟨-12, true, 1⟩ : InitResult).shardsHeld = 0) := by
  decide

/-- Witness for C7 on a concrete armed state. -/
theorem ttp_write_start_stop_spec_witness :
    (true = true →
      ttp_write ⟨2, true, 1, some [⟨0, []⟩], CLOCK_REALTIME, 0⟩
          "start".toList true
        = (⟨2, true, 1, some [⟨0, []⟩], CLOCK_REALTIME, 0⟩, .ebusy)) ∧
    (ttp_write ⟨2, true, 1, some [⟨0, []⟩], CLOCK_REALTIME, 0⟩
        "stop".toList true
      = (⟨2, false, 1, some [⟨0, []⟩], CLOCK_REALTIME, 0⟩, .ok 4)) ∧
    (ttp_write (ttp_write ⟨2, true, 1, some [⟨0, []⟩], CLOCK_REALTIME, 0⟩
        "stop".toList true).1 "stop".toList true
      = ttp_write ⟨2, true, 1, some [⟨0, []⟩], CLOCK_REALTIME, 0⟩
        "stop".toList true) :=
  ttp_write_start_stop_spec 2 true 1 [⟨0, []⟩] CLOCK_REALTIME 0

end Ttp
